import Mathlib

/-!
Verification of the Langlint extraction/translation/reconstruction pipeline.

Rust strings are modelled as `List Char` (`Str`).  Rust byte indices returned
by `str::find` are used in the source only to slice the very string they were
computed from, so positions are modelled as character indices and slicing as
`take`/`drop`; byte *lengths* (Rust `str::len`) are modelled separately by
`utf8Len`, summing the UTF-8 size of each character, because the extractors
compare them against character counts.
-/

namespace Langlint

abbrev Str := List Char

def toStr (s : String) : Str := s.toList

/-- Unicode White_Space, the set accepted by Rust `char::is_whitespace`. -/
def isRustWs (c : Char) : Bool :=
  let n := c.toNat
  (0x09 ≤ n ∧ n ≤ 0x0D) ∨ n = 0x20 ∨ n = 0x85 ∨ n = 0xA0 ∨ n = 0x1680 ∨
  (0x2000 ≤ n ∧ n ≤ 0x200A) ∨ n = 0x2028 ∨ n = 0x2029 ∨ n = 0x202F ∨
  n = 0x205F ∨ n = 0x3000

/-- Rust `str::trim_start`. -/
def trimStart (s : Str) : Str := s.dropWhile isRustWs

/-- Rust `str::trim_end`. -/
def trimEnd (s : Str) : Str := (s.reverse.dropWhile isRustWs).reverse

/-- Rust `str::trim`. -/
def rustTrim (s : Str) : Str := trimEnd (trimStart s)

/-- Rust `str::len`: the UTF-8 byte length. -/
def utf8Len (s : Str) : Nat := (s.map Char.utf8Size).sum

/-- Character index of the first occurrence of `pat` in `s`
(models Rust `str::find` on the strings it is used to slice). -/
def findSub (pat : Str) : Str → Option Nat
  | [] => if pat.isEmpty then some 0 else none
  | c :: tail =>
    if pat.isPrefixOf (c :: tail) then some 0
    else (findSub pat tail).map (· + 1)

/-- Rust `str::contains` for a string pattern. -/
def containsSub (pat s : Str) : Bool := (findSub pat s).isSome

/-- Rust `str::contains` for a char pattern. -/
def containsChar (c : Char) (s : Str) : Bool := s.contains c

/-- Rust `str::ends_with`. -/
def strEndsWith (suf s : Str) : Bool := suf.reverse.isPrefixOf s.reverse

/-- Replace the first occurrence of the literal pattern `pat` in `s` by `repl`
(models `Regex::new(&regex::escape(pat))` followed by `Regex::replace`). -/
def replaceFirst (s pat repl : Str) : Str :=
  match findSub pat s with
  | none => s
  | some i => s.take i ++ repl ++ s.drop (i + pat.length)

/-- Rust `str::split('\n')` piece list. -/
def splitNL : Str → List Str
  | [] => [[]]
  | c :: rest =>
    if c = '\n' then [] :: splitNL rest
    else
      match splitNL rest with
      | [] => [[c]]
      | h :: t => (c :: h) :: t

/-- Strip one trailing carriage return, as Rust `str::lines` does per line. -/
def stripCR (l : Str) : Str := if l.getLast? = some '\r' then l.dropLast else l

/-- Drop the final piece when it is empty (the split of a string that is empty
or ends with a newline has a final empty piece that Rust `str::lines` omits). -/
def dropLastEmpty (ps : List Str) : List Str :=
  if ps.getLast? = some [] then ps.dropLast else ps

/-- Rust `str::lines`: split on `'\n'`, drop the final empty piece,
strip one `'\r'` from the end of each piece. -/
def rustLines (s : Str) : List Str :=
  (dropLastEmpty (splitNL s)).map stripCR

/-- Join with a single newline (Rust `Vec::join("\n")`). -/
def joinNL (ls : List Str) : Str := List.intercalate ['\n'] ls

/- ### Basic lemmas about the string model -/

theorem splitNL_ne_nil (s : Str) : splitNL s ≠ [] := by
  induction s with
  | nil => simp [splitNL]
  | cons c rest ih =>
    simp only [splitNL]
    split
    · simp
    · cases h : splitNL rest with
      | nil => simp
      | cons h t => simp

theorem joinNL_nil : joinNL [] = [] := rfl

theorem joinNL_single (l : Str) : joinNL [l] = l := by
  simp [joinNL, List.intercalate, List.intersperse]

theorem joinNL_cons (l h : Str) (t : List Str) :
    joinNL (l :: h :: t) = l ++ '\n' :: joinNL (h :: t) := by
  simp [joinNL, List.intercalate, List.intersperse]

theorem joinNL_splitNL (s : Str) : joinNL (splitNL s) = s := by
  induction s with
  | nil => simp [splitNL, joinNL, List.intercalate]
  | cons c rest ih =>
    simp only [splitNL]
    split
    · rename_i hc
      subst hc
      cases h : splitNL rest with
      | nil => exact absurd h (splitNL_ne_nil rest)
      | cons hd tl =>
        rw [h] at ih
        rw [joinNL_cons, ih]
        simp
    · cases h : splitNL rest with
      | nil => exact absurd h (splitNL_ne_nil rest)
      | cons hd tl =>
        rw [h] at ih
        cases tl with
        | nil => simpa [joinNL_single] using ih
        | cons x xs =>
          rw [joinNL_cons] at ih ⊢
          simp [ih]

theorem mem_splitNL_no_nl (s : Str) : ∀ l ∈ splitNL s, ¬ '\n' ∈ l := by
  induction s with
  | nil => simp [splitNL]
  | cons c rest ih =>
    simp only [splitNL]
    split
    · intro l hl
      rcases List.mem_cons.mp hl with h | h
      · subst h; simp
      · exact ih l h
    · rename_i hc
      cases h : splitNL rest with
      | nil => exact absurd h (splitNL_ne_nil rest)
      | cons hd tl =>
        intro l hl
        rw [h] at ih
        rcases List.mem_cons.mp hl with h1 | h1
        · subst h1
          intro hmem
          rcases List.mem_cons.mp hmem with h2 | h2
          · exact hc h2.symm
          · exact ih hd (List.mem_cons_self hd tl) h2
        · exact ih l (List.mem_cons_of_mem hd h1)

theorem mem_splitNL_sub (s : Str) : ∀ l ∈ splitNL s, ∀ c ∈ l, c ∈ s := by
  induction s with
  | nil => simp [splitNL]
  | cons a rest ih =>
    simp only [splitNL]
    split
    · intro l hl c hc
      rcases List.mem_cons.mp hl with h | h
      · subst h; simp at hc
      · exact List.mem_cons_of_mem a (ih l h c hc)
    · cases h : splitNL rest with
      | nil => exact absurd h (splitNL_ne_nil rest)
      | cons hd tl =>
        rw [h] at ih
        intro l hl c hc
        rcases List.mem_cons.mp hl with h1 | h1
        · subst h1
          rcases List.mem_cons.mp hc with h2 | h2
          · subst h2; simp
          · exact List.mem_cons_of_mem a (ih hd (List.mem_cons_self hd tl) c h2)
        · exact List.mem_cons_of_mem a (ih l (List.mem_cons_of_mem hd h1) c hc)

theorem stripCR_of_no_cr (l : Str) (h : ¬ '\r' ∈ l) : stripCR l = l := by
  unfold stripCR
  split
  · rename_i hl
    obtain ⟨hne, heq⟩ :=
      List.mem_getLast?_eq_getLast (Option.mem_def.mpr hl)
    exact absurd (heq ▸ List.getLast_mem hne) h
  · rfl

theorem splitNL_cons_nl (x : Str) : splitNL ('\n' :: x) = [] :: splitNL x := by
  simp [splitNL]

theorem splitNL_append_no_nl (a s : Str) (ha : ¬ '\n' ∈ a) :
    splitNL (a ++ s) = (a ++ (splitNL s).headI) :: (splitNL s).tail := by
  induction a with
  | nil =>
    cases h : splitNL s with
    | nil => exact absurd h (splitNL_ne_nil s)
    | cons hd tl => simp [h]
  | cons c a ih =>
    have hc : c ≠ '\n' := fun h => ha (h ▸ List.mem_cons_self c a)
    have ha2 : ¬ '\n' ∈ a := fun h => ha (List.mem_cons_of_mem c h)
    simp only [List.cons_append, splitNL, if_neg hc, List.append_eq]
    rw [ih ha2]

theorem splitNL_single (a : Str) (ha : ¬ '\n' ∈ a) : splitNL a = [a] := by
  have := splitNL_append_no_nl a [] ha
  simpa [splitNL] using this

theorem splitNL_joinNL (ls : List Str) (hne : ls ≠ [])
    (hnl : ∀ l ∈ ls, ¬ '\n' ∈ l) : splitNL (joinNL ls) = ls := by
  induction ls with
  | nil => exact absurd rfl hne
  | cons l t ih =>
    cases t with
    | nil =>
      rw [joinNL_single]
      exact splitNL_single l (hnl l (List.mem_cons_self l []))
    | cons h2 t2 =>
      rw [joinNL_cons]
      have hl : ¬ '\n' ∈ l := hnl l (List.mem_cons_self l _)
      have hrec := ih (by simp) (fun x hx => hnl x (List.mem_cons_of_mem l hx))
      rw [splitNL_append_no_nl l _ hl, splitNL_cons_nl, hrec]
      simp

theorem splitNL_append_nl_nil (s : Str) : splitNL (s ++ ['\n']) = splitNL s ++ [[]] := by
  induction s with
  | nil => simp [splitNL]
  | cons c rest ih =>
    by_cases hc : c = '\n'
    · subst hc
      rw [List.cons_append, splitNL_cons_nl, splitNL_cons_nl, ih]
      rfl
    · simp only [List.cons_append, splitNL, if_neg hc, List.append_eq]
      rw [ih]
      cases h : splitNL rest with
      | nil => exact absurd h (splitNL_ne_nil rest)
      | cons hd tl => simp

/-- `rustLines` drops exactly one final newline. -/
theorem rustLines_append_nl (s : Str) :
    rustLines (s ++ ['\n']) = (splitNL s).map stripCR := by
  unfold rustLines dropLastEmpty
  rw [splitNL_append_nl_nil s]
  rw [if_pos (by simp)]
  simp

/- ### Unit model (langlint_core/src/types.rs)

`context` (a human-readable provenance note built with `format!`) and
`detected_language` (set by the external `whatlang` classifier) are advisory
fields that no extractor, filter or reconstructor ever reads back; they are
omitted from the shallow embedding.  `metadata` is a `serde_json::Value` in
the source; the only shape ever written or read is the object
with fields `span` and `end_line` produced by the Python extractor, modelled
by `PyDocMeta`. -/

inductive UnitType where
  | Comment | Docstring | StringLiteral | TextNode | Metadata
deriving DecidableEq, Repr

inductive Priority where
  | High | Medium | Low | Ignore
deriving DecidableEq, Repr

structure PyDocMeta where
  span : Nat
  end_line : Nat
deriving DecidableEq, Repr

structure TranslatableUnit where
  content : Str
  unit_type : UnitType
  line_number : Nat
  column_number : Nat
  metadata : Option PyDocMeta
  priority : Priority
deriving DecidableEq, Repr

structure ParseResult where
  units : List TranslatableUnit
  file_type : Str
  encoding : Str
  line_count : Nat
deriving DecidableEq, Repr

/-- The double-quote character. -/
def dq : Char := Char.ofNat 34

/-- The single-quote character. -/
def sq : Char := Char.ofNat 39

def isQuoteChar (c : Char) : Bool := c = dq ∨ c = sq

def dq3 : Str := [dq, dq, dq]

def sq3 : Str := [sq, sq, sq]

/-- Model of Rust `char::is_alphabetic` (Unicode `Alphabetic`), restricted to
the scripts exercised in this development: ASCII and Latin-1 letters, CJK
ideographs (base block and extension A), hiragana/katakana, and hangul.
Letters of other scripts (Greek, Cyrillic, Arabic, ...) are alphabetic in
Rust but not here, so the translatability filters built on this predicate are
only trusted where a theorem's inputs stay inside the modelled scripts (the
concrete witnesses do), or where the theorem's truth does not depend on the
filter's verdict at all (the round-trip hypotheses of `genLineOk`,
`pyCommentOk` and `pyDocOk` demand canonical form unconditionally for
exactly this reason). -/
def rustIsAlphabetic (c : Char) : Bool :=
  let n := c.toNat
  (0x41 ≤ n ∧ n ≤ 0x5A) ∨ (0x61 ≤ n ∧ n ≤ 0x7A) ∨
  (0xC0 ≤ n ∧ n ≤ 0xFF ∧ n ≠ 0xD7 ∧ n ≠ 0xF7) ∨
  (0x4E00 ≤ n ∧ n ≤ 0x9FFF) ∨ (0x3400 ≤ n ∧ n ≤ 0x4DBF) ∨
  (0x3041 ≤ n ∧ n ≤ 0x30FF ∧ n ≠ 0x3097 ∧ n ≠ 0x3098) ∨
  (0xAC00 ≤ n ∧ n ≤ 0xD7AF)

/-- Model of Rust `str::to_uppercase`: `char::to_uppercase` character by
character (exact on the ASCII/CJK data this development evaluates on). -/
def rustUpper (s : Str) : Str := s.map Char.toUpper

/- ### Python extractor (langlint_parsers/src/python.rs) -/

namespace PythonParser

/-- The keyword/technical-term list of `PythonParser::is_translatable`,
matched by exact equality against the trimmed text. -/
def technical_terms : List Str :=
  [toStr "TODO", toStr "FIXME", toStr "NOTE", toStr "HACK", toStr "XXX",
   toStr "self", toStr "cls", toStr "args", toStr "kwargs",
   toStr "return", toStr "def", toStr "class", toStr "import"]

/-- The character filter of the meaningful-count: `is_alphabetic` or one of
the explicit CJK/kana/hangul ranges. -/
def meaningfulChar (c : Char) : Bool :=
  rustIsAlphabetic c ∨
  (0x4E00 ≤ c.toNat ∧ c.toNat ≤ 0x9FFF) ∨
  (0x3400 ≤ c.toNat ∧ c.toNat ≤ 0x4DBF) ∨
  (0x3040 ≤ c.toNat ∧ c.toNat ≤ 0x30FF) ∨
  (0xAC00 ≤ c.toNat ∧ c.toNat ≤ 0xD7AF)

/-- `PythonParser::is_translatable`.  Note that the length guard compares the
UTF-8 byte length (`str::len`), while the ratio compares character counts. -/
def is_translatable (text : Str) : Bool :=
  let t := rustTrim text
  if utf8Len t < 3 then false
  else if containsSub (toStr "://") t ∨ (containsChar '@' t ∧ containsChar '.' t) then false
  else
    let char_count := t.length
    let meaningful_count := (t.filter meaningfulChar).length
    if meaningful_count < char_count / 3 then false
    else if technical_terms.contains t then false
    else true

/-- The comment regex `^\s*#\s*(.+)$`, composed with the `.trim()` the
extractor applies to the capture: a match exists iff the line is optional
whitespace, `#`, and a nonempty remainder; the trimmed capture is then the
trimmed remainder (the inner `\s*` only shifts where the capture starts,
which trimming erases). -/
def commentText (line : Str) : Option Str :=
  match trimStart line with
  | c :: rest => if c = '#' ∧ rest ≠ [] then some (rustTrim rest) else none
  | [] => none

def isThreeQuote : Str → Bool
  | a :: b :: c :: _ => isQuoteChar a ∧ isQuoteChar b ∧ isQuoteChar c
  | _ => false

/-- Scanner for the lazy group in `^\s*["']{3}(.+?)["']{3}`: the capture is
the shortest nonempty prefix followed by three quote characters. -/
def docScanAux : Str → Str → Option Str
  | acc, [] => if isThreeQuote [] then some acc else none
  | acc, d :: r => if isThreeQuote (d :: r) then some acc else docScanAux (acc ++ [d]) r

/-- The single-line docstring regex `^\s*["']{3}(.+?)["']{3}` (no `$`:
trailing text is allowed). -/
def singleDocCapture (line : Str) : Option Str :=
  match trimStart line with
  | a :: b :: c :: rest =>
    if isQuoteChar a ∧ isQuoteChar b ∧ isQuoteChar c then
      match rest with
      | [] => none
      | d :: r => docScanAux [d] r
    else none
  | _ => none

/-- The docstring-start regex `^\s*(["']{3})\s*(.*)$`, composed with the
`.trim()` applied to the second capture; returns the quote run and the
trimmed first-line content. -/
def docStartCapture (line : Str) : Option (Str × Str) :=
  match trimStart line with
  | a :: b :: c :: rest =>
    if isQuoteChar a ∧ isQuoteChar b ∧ isQuoteChar c then
      some ([a, b, c], rustTrim rest)
    else none
  | _ => none

/-- The inner `while` of the multi-line docstring branch: scan forward for a
line containing the quote run.  Returns the accumulated trimmed non-empty
content lines, the line number of the closing line, whether the end was
found, and the lines after the closing line (where the outer loop resumes).
When the end is never found the extractor emits nothing and the returned
line number is unused. -/
def scanClose (quote : Str) : List Str → Nat → List Str × Nat × Bool × List Str
  | [], ln => ([], ln, false, [])
  | l :: rest, ln =>
    if containsSub quote l then
      let endPos := (findSub quote l).getD 0
      let lastContent := rustTrim (l.take endPos)
      ((if lastContent = [] then [] else [lastContent]), ln, true, rest)
    else
      let r := scanClose quote rest (ln + 1)
      ((if rustTrim l = [] then r.1 else rustTrim l :: r.1), r.2.1, r.2.2.1, r.2.2.2)

theorem scanClose_rest_le (quote : Str) (ls : List Str) (ln : Nat) :
    (scanClose quote ls ln).2.2.2.length ≤ ls.length := by
  induction ls generalizing ln with
  | nil => simp [scanClose]
  | cons l rest ih =>
    simp only [scanClose]
    split
    · simp
    · exact le_trans (ih (ln + 1)) (by simp)

def joinSpace (ls : List Str) : Str := List.intercalate [' '] ls

/-- The per-line units produced when a line does not enter the multi-line
docstring scan: the optional comment unit, then the optional single-line
docstring unit. -/
def lineUnits (line : Str) (ln : Nat) : List TranslatableUnit :=
  (match commentText line with
   | some text =>
     if is_translatable text then
       [(⟨text, .Comment, ln, 1, none, .Medium⟩ : TranslatableUnit)]
     else []
   | none => []) ++
  (match singleDocCapture line with
   | some cap =>
     let text := rustTrim cap
     if is_translatable text then
       [(⟨text, .Docstring, ln, 1, none, .High⟩ : TranslatableUnit)]
     else []
   | none => [])

/-- The comment-unit part of `lineUnits` alone. -/
def commentUnits (line : Str) (ln : Nat) : List TranslatableUnit :=
  match commentText line with
  | some text =>
    if is_translatable text then
      [(⟨text, .Comment, ln, 1, none, .Medium⟩ : TranslatableUnit)]
    else []
  | none => []

/-- The line loop of `PythonParser::extract_units`, over the remaining lines
and the 1-based number of the first of them.  `fuel` bounds the number of
iterations so the recursion is structural (the kernel can evaluate it);
`extract_units` supplies `fuel = lines.length`, which is never exhausted
because every iteration consumes at least one line. -/
def extractGo : Nat → List Str → Nat → List TranslatableUnit
  | _, [], _ => []
  | 0, _ :: _, _ => []
  | fuel + 1, line :: rest, ln =>
    match singleDocCapture line with
    | some _ => lineUnits line ln ++ extractGo fuel rest (ln + 1)
    | none =>
      match docStartCapture line with
      | some qf =>
        if qf.2 ≠ [] ∧ strEndsWith qf.1 (trimEnd line) then
          commentUnits line ln ++ extractGo fuel rest (ln + 1)
        else
          let scanned := scanClose qf.1 rest (ln + 1)
          let docLines := (if qf.2 = [] then [] else [qf.2]) ++ scanned.1
          let content := joinSpace docLines
          commentUnits line ln ++
            (if scanned.2.2.1 ∧ is_translatable content then
              [(⟨content, .Docstring, ln, 1,
                some ⟨scanned.2.1 - ln + 1, scanned.2.1⟩, .High⟩ : TranslatableUnit)]
            else []) ++
            extractGo fuel scanned.2.2.2 (scanned.2.1 + 1)
      | none => commentUnits line ln ++ extractGo fuel rest (ln + 1)

/-- `PythonParser::extract_units`. -/
def extract_units (content : Str) (_path : Str) : ParseResult :=
  let lines := rustLines content
  { units := extractGo lines.length lines 1
    file_type := toStr "python"
    encoding := toStr "utf-8"
    line_count := lines.length }

/-- Lookup in the line-replacement map.  The map is built by prepending, so
taking the first hit models `HashMap::insert` overwriting earlier entries. -/
def lookupRepl (repl : List (Nat × Str)) (n : Nat) : Option Str :=
  (repl.find? (fun p => p.1 = n)).map (·.2)

/-- One step of the unit loop of `PythonParser::reconstruct`: updates the
line-replacement map and the skip set. -/
def buildStep (lines : List Str) (st : List (Nat × Str) × List Nat)
    (u : TranslatableUnit) : List (Nat × Str) × List Nat :=
  let line_idx := u.line_number - 1
  if line_idx ≥ lines.length then st
  else
    let line := lines.getD line_idx []
    match u.unit_type with
    | .Comment =>
      match findSub ['#'] line with
      | some hash_pos =>
        ((u.line_number, line.take hash_pos ++ toStr "# " ++ u.content) :: st.1, st.2)
      | none => st
    | .Docstring =>
      let quote_style := if containsSub dq3 line then dq3 else sq3
      let indent := line.takeWhile isRustWs
      let span := (u.metadata.map (·.span)).getD 1
      let new_line := indent ++ quote_style ++ u.content ++ quote_style
      ((u.line_number, new_line) :: st.1,
       st.2 ++ (List.range (span - 1)).map (fun offset => u.line_number + offset + 1))
    | _ => st

/-- The final line loop of `PythonParser::reconstruct`. -/
def assemble (repl : List (Nat × Str)) (skips : List Nat) :
    List Str → Nat → List Str
  | [], _ => []
  | l :: rest, n =>
    if n ∈ skips then assemble repl skips rest (n + 1)
    else ((lookupRepl repl n).getD l) :: assemble repl skips rest (n + 1)

/-- `PythonParser::reconstruct`. -/
def reconstruct (original : Str) (units : List TranslatableUnit)
    (_path : Str) : Str :=
  let lines := rustLines original
  let maps := units.foldl (buildStep lines) ([], [])
  joinNL (assemble maps.1 maps.2 lines 1)

end PythonParser

/- ### Generic code extractor (langlint_parsers/src/generic.rs) -/

namespace GenericCodeParser

structure CommentStyle where
  single_line : List Str
  multi_line_start : Option Str
  multi_line_end : Option Str

/-- `GenericCodeParser::get_comment_patterns`. -/
def get_comment_patterns (extension : Str) : CommentStyle :=
  if [".js", ".ts", ".jsx", ".tsx", ".java", ".c", ".cpp", ".h", ".hpp",
      ".cs", ".go", ".rs", ".swift", ".kt", ".scala"].map toStr
       |>.contains extension then
    ⟨[toStr "//"], some (toStr "/*"), some (toStr "*/")⟩
  else if [".r", ".R", ".sh", ".bash", ".py"].map toStr |>.contains extension then
    ⟨[toStr "#"], none, none⟩
  else if [".lua", ".sql"].map toStr |>.contains extension then
    ⟨[toStr "--"], some (toStr "/*"), some (toStr "*/")⟩
  else
    ⟨[toStr "//"], some (toStr "/*"), some (toStr "*/")⟩

/-- The technical-marker list of `GenericCodeParser::is_translatable`,
matched as substrings of the uppercased text. -/
def technical_terms : List Str :=
  [toStr "TODO", toStr "FIXME", toStr "NOTE", toStr "HACK", toStr "XXX",
   toStr "BUG", toStr "DEPRECATED", toStr "WARNING", toStr "ERROR"]

/-- `GenericCodeParser::is_translatable`.  The length guard and the ratio
denominator use the UTF-8 byte length (`str::len`), while `alpha_count`
counts characters. -/
def is_translatable (text : Str) : Bool :=
  let t := rustTrim text
  if utf8Len t < 3 then false
  else if containsSub (toStr "://") t then false
  else
    let alpha_count := (t.filter rustIsAlphabetic).length
    if alpha_count < utf8Len t / 3 then false
    else if (technical_terms.any fun term => containsSub term (rustUpper t)) ∧
            utf8Len t < 20 then false
    else true

/-- The scanner state of `GenericCodeParser::extract_units`.
The extension passed to `extract_units`/`reconstruct` below stands for
`format!(".{}", Path::new(path).extension()...)` with default `".unknown"`,
which both source functions compute from the path in the same way. -/
structure GenState where
  in_multi_line_comment : Bool
  multi_line_content : Str
  multi_line_start : Nat
  units : List TranslatableUnit

/-- The block-comment part of one line of the scanner loop of
`GenericCodeParser::extract_units`. -/
def genBlockStep (style : CommentStyle) (st : GenState) (ln : Nat) (line : Str) :
    GenState :=
  match style.multi_line_start, style.multi_line_end with
  | some start_marker, some end_marker =>
    if ¬ st.in_multi_line_comment ∧ containsSub start_marker line then
      let start_pos := (findSub start_marker line).getD 0
      let after_start := line.drop (start_pos + start_marker.length)
      match findSub end_marker after_start with
      | some end_pos =>
        let comment_text := rustTrim (after_start.take end_pos)
        { st with
          in_multi_line_comment := false
          multi_line_start := ln
          multi_line_content := []
          units := st.units ++
            (if is_translatable comment_text then
              [(⟨comment_text, .Comment, ln, 1, none, .Medium⟩ : TranslatableUnit)]
            else []) }
      | none =>
        { st with
          in_multi_line_comment := true
          multi_line_start := ln
          multi_line_content := rustTrim after_start ++ [' '] }
    else if st.in_multi_line_comment then
      match findSub end_marker line with
      | some end_pos =>
        let full := st.multi_line_content ++ rustTrim (line.take end_pos)
        { st with
          in_multi_line_comment := false
          multi_line_content := []
          units := st.units ++
            (if is_translatable full then
              [(⟨rustTrim full, .Comment, st.multi_line_start, 1, none, .Medium⟩ :
                 TranslatableUnit)]
            else []) }
      | none =>
        { st with multi_line_content := st.multi_line_content ++ rustTrim line ++ [' '] }
    else st
  | _, _ => st

/-- The single-line-comment part of one line of the scanner loop, checked
against the flag updated by the block part. -/
def genSingleStep (style : CommentStyle) (st1 : GenState) (ln : Nat) (line : Str) :
    GenState :=
  if st1.in_multi_line_comment then st1
  else
    match style.single_line.findSome? (fun m => (findSub m line).map (m, ·)) with
    | some (marker, pos) =>
      let comment_text := rustTrim (line.drop (pos + marker.length))
      if is_translatable comment_text then
        { st1 with units := st1.units ++
            [(⟨comment_text, .Comment, ln, pos + 1, none, .Medium⟩ : TranslatableUnit)] }
      else st1
    | none => st1

/-- One line of the scanner loop of `GenericCodeParser::extract_units`:
block-comment handling, then single-line handling. -/
def genStep (style : CommentStyle) (st : GenState) (ln : Nat) (line : Str) :
    GenState :=
  genSingleStep style (genBlockStep style st ln line) ln line

/-- The indexed fold of the scanner over the lines. -/
def genLoop (style : CommentStyle) : GenState → List Str → Nat → GenState
  | st, [], _ => st
  | st, l :: rest, ln => genLoop style (genStep style st ln l) rest (ln + 1)

/-- `GenericCodeParser::extract_units`, with the comment style already
selected from the path's extension. -/
def extract_units (content : Str) (extension : Str) : ParseResult :=
  let lines := rustLines content
  let style := get_comment_patterns extension
  { units := (genLoop style ⟨false, [], 0, []⟩ lines 1).units
    file_type := toStr "generic_code"
    encoding := toStr "utf-8"
    line_count := lines.length }

/-- Descending comparison used by
`sorted_units.sort_by(|a, b| b.line_number.cmp(&a.line_number))`. -/
def lineGE (a b : TranslatableUnit) : Prop := b.line_number ≤ a.line_number

instance : DecidableRel lineGE := fun a b => Nat.decLe b.line_number a.line_number

/-- One unit of the replacement loop of `GenericCodeParser::reconstruct`:
find the first single-line marker on the unit's anchor line and replace the
first occurrence of that whole line in the evolving result with
`before ++ marker ++ " " ++ content` (the regex built from
`regex::escape(line)` matches the line literally and `Regex::replace`
rewrites only the first match). -/
def reconStep (style : CommentStyle) (lines : List Str) (result : Str)
    (u : TranslatableUnit) : Str :=
  let line_idx := u.line_number - 1
  if line_idx ≥ lines.length then result
  else
    let line := lines.getD line_idx []
    match style.single_line.findSome? (fun m => (findSub m line).map (m, ·)) with
    | some (marker, pos) =>
      let new_line := line.take pos ++ marker ++ [' '] ++ u.content
      replaceFirst result line new_line
    | none => result

/-- `GenericCodeParser::reconstruct`, with the comment style already
selected from the path's extension. -/
def reconstruct (original : Str) (units : List TranslatableUnit)
    (extension : Str) : Str :=
  let sorted_units := units.insertionSort lineGE
  let style := get_comment_patterns extension
  let lines := rustLines original
  sorted_units.foldl (reconStep style lines) original

end GenericCodeParser

/- ### Translators (langlint_translators/src/lib.rs, mock.rs, google.rs)

`f64` quantities (error rate, random draws, confidence) are modelled as `ℚ`;
only order comparisons are performed on them.  Random draws and network
calls are passed in as explicit parameters/oracles.  `HashMap` metadata is
modelled as an association list built by prepending, so a lookup that takes
the first hit sees the latest insertion, as `HashMap::insert` does. -/

deriving instance DecidableEq for Except

inductive TranslationStatus where
  | Success | Failed | Partial | Skipped
deriving DecidableEq, Repr

structure TranslationResult where
  original_text : Str
  translated_text : Str
  source_language : Str
  target_language : Str
  status : TranslationStatus
  confidence : ℚ
  metadata : Option (List (Str × Str))
deriving DecidableEq, Repr

inductive TranslationError where
  | UnsupportedLanguage (code : Str)
  | TranslationFailed (message : Str) (translator_name : Str) (error_code : Option Str)
  | NetworkError
  | InvalidInput (message : Str)
  | RateLimitExceeded
  | Other
deriving DecidableEq, Repr

namespace TranslationResult

/-- `TranslationResult::success`. -/
def success (original_text translated_text source_language target_language : Str)
    (confidence : ℚ) : TranslationResult :=
  ⟨original_text, translated_text, source_language, target_language,
   .Success, confidence, none⟩

/-- `TranslationResult::failed`: the translated text falls back to the
original text. -/
def failed (original_text source_language target_language error_msg : Str) :
    TranslationResult :=
  ⟨original_text, original_text, source_language, target_language,
   .Failed, 0, some [(toStr "error", error_msg)]⟩

/-- `TranslationResult::with_metadata`. -/
def with_metadata (r : TranslationResult) (key value : Str) : TranslationResult :=
  { r with metadata := some ((key, value) :: r.metadata.getD []) }

/-- Metadata lookup (latest insertion wins). -/
def getMeta (r : TranslationResult) (key : Str) : Option Str :=
  ((r.metadata.getD []).find? (fun p => p.1 = key)).map (·.2)

end TranslationResult

/-- Model of Rust `str::to_lowercase`: `char::to_lowercase` character by
character (exact on the ASCII language codes this development uses). -/
def rustLower (s : Str) : Str := s.map Char.toLower

/-- `Translator::is_language_supported` for a backend given by its
normalization function and supported-code list. -/
def is_language_supported (normalize : Str → Str) (supported : List Str)
    (code : Str) : Bool :=
  supported.contains (normalize code)

/-- `Translator::validate_languages`. -/
def validate_languages (normalize : Str → Str) (supported : List Str)
    (source target : Str) : Except TranslationError Unit :=
  if ¬ is_language_supported normalize supported source then
    .error (.UnsupportedLanguage source)
  else if ¬ is_language_supported normalize supported target then
    .error (.UnsupportedLanguage target)
  else .ok ()

/-- Decimal digits of a natural number (for metadata values). -/
def natToStr (n : Nat) : Str := toStr (toString n)

namespace MockTranslator

structure MockConfig where
  delay_range : Nat × Nat
  error_rate : ℚ
  confidence_range : ℚ × ℚ
deriving DecidableEq, Repr

/-- `MockConfig::default`. -/
def defaultConfig : MockConfig := ⟨(100, 500), 0, (Rat.mk' 4 5, 1)⟩

/-- The `language_mapping` table of `MockTranslator::with_config`. -/
def language_mapping : List (Str × Str) :=
  [(toStr "en", toStr "English"), (toStr "zh", toStr "Chinese"),
   (toStr "ja", toStr "Japanese"), (toStr "ko", toStr "Korean"),
   (toStr "fr", toStr "French"), (toStr "de", toStr "German"),
   (toStr "es", toStr "Spanish"), (toStr "it", toStr "Italian"),
   (toStr "pt", toStr "Portuguese"), (toStr "ru", toStr "Russian"),
   (toStr "ar", toStr "Arabic"), (toStr "hi", toStr "Hindi"),
   (toStr "th", toStr "Thai"), (toStr "vi", toStr "Vietnamese"),
   (toStr "id", toStr "Indonesian")]

/-- `MockTranslator::supported_languages` (the mapping keys; `HashMap` key
order is immaterial, only membership is ever used). -/
def supported_languages : List Str := language_mapping.map (·.1)

/-- `MockTranslator::normalize_language_code`. -/
def normalize_language_code (language_code : Str) : Str :=
  let normalized := rustLower language_code
  if normalized = toStr "en-us" ∨ normalized = toStr "en-gb" then toStr "en"
  else if normalized = toStr "zh-cn" ∨ normalized = toStr "zh-tw" then toStr "zh"
  else if normalized = toStr "ja-jp" then toStr "ja"
  else if normalized = toStr "ko-kr" then toStr "ko"
  else if normalized = toStr "fr-fr" then toStr "fr"
  else if normalized = toStr "de-de" then toStr "de"
  else if normalized = toStr "es-es" then toStr "es"
  else if normalized = toStr "it-it" then toStr "it"
  else if normalized = toStr "pt-br" ∨ normalized = toStr "pt-pt" then toStr "pt"
  else if normalized = toStr "ru-ru" then toStr "ru"
  else if normalized = toStr "ar-sa" then toStr "ar"
  else if normalized = toStr "hi-in" then toStr "hi"
  else if normalized = toStr "th-th" then toStr "th"
  else if normalized = toStr "vi-vn" then toStr "vi"
  else if normalized = toStr "id-id" then toStr "id"
  else normalized

/-- `MockTranslator::generate_mock_translation`. -/
def generate_mock_translation (text source target : Str) : Str :=
  if source = target then text
  else
    let target_name := ((language_mapping.find? (fun p => p.1 = target)).map (·.2)).getD target
    if target = toStr "en" then toStr "[EN] " ++ text
    else if target = toStr "zh" then toStr "[中文] " ++ text
    else if target = toStr "ja" then toStr "[日本語] " ++ text
    else if target = toStr "ko" then toStr "[한국어] " ++ text
    else if target = toStr "fr" then toStr "[Français] " ++ text
    else if target = toStr "de" then toStr "[Deutsch] " ++ text
    else if target = toStr "es" then toStr "[Español] " ++ text
    else if target = toStr "it" then toStr "[Italiano] " ++ text
    else if target = toStr "pt" then toStr "[Português] " ++ text
    else if target = toStr "ru" then toStr "[Русский] " ++ text
    else if target = toStr "ar" then toStr "[العربية] " ++ text
    else if target = toStr "hi" then toStr "[हिन्दी] " ++ text
    else if target = toStr "th" then toStr "[ไทย] " ++ text
    else if target = toStr "vi" then toStr "[Tiếng Việt] " ++ text
    else if target = toStr "id" then toStr "[Bahasa Indonesia] " ++ text
    else ('[' :: target_name ++ [']', ' ']) ++ text

/-- `MockTranslator::translate`.  `delay_ms`, `random_val` and `confidence`
are the three random draws the source takes before awaiting. -/
def translate (config : MockConfig) (delay_ms : Nat) (random_val confidence : ℚ)
    (text source_language target_language : Str) :
    Except TranslationError TranslationResult :=
  match validate_languages normalize_language_code supported_languages
      source_language target_language with
  | .error e => .error e
  | .ok _ =>
    let source_lang := normalize_language_code source_language
    let target_lang := normalize_language_code target_language
    if random_val < config.error_rate then
      .error (.TranslationFailed (toStr "Mock translation failed (simulated error)")
        (toStr "Mock") (some (toStr "MOCK_ERROR")))
    else
      let translated_text := generate_mock_translation text source_lang target_lang
      .ok ((((TranslationResult.success text translated_text source_lang target_lang
          confidence).with_metadata
            (toStr "mock") (toStr "true")).with_metadata
            (toStr "delay_ms") (natToStr delay_ms)).with_metadata
            (toStr "translator") (toStr "Mock"))

/-- `MockTranslator::translate_batch`.  The single `random_val` draw happens
once, before the loop: when it falls under the error rate the whole batch
call returns an error. -/
def translate_batch (config : MockConfig) (delay_ms : Nat) (random_val : ℚ)
    (confidences : Nat → ℚ) (texts : List Str)
    (source_language target_language : Str) :
    Except TranslationError (List TranslationResult) :=
  match validate_languages normalize_language_code supported_languages
      source_language target_language with
  | .error e => .error e
  | .ok _ =>
    let source_lang := normalize_language_code source_language
    let target_lang := normalize_language_code target_language
    if random_val < config.error_rate then
      .error (.TranslationFailed (toStr "Mock batch translation failed (simulated error)")
        (toStr "Mock") (some (toStr "MOCK_BATCH_ERROR")))
    else
      .ok (texts.enum.map (fun p =>
        let translated_text := generate_mock_translation p.2 source_lang target_lang
        ((((TranslationResult.success p.2 translated_text source_lang target_lang
            (confidences p.1)).with_metadata
              (toStr "mock") (toStr "true")).with_metadata
              (toStr "delay_ms") (natToStr delay_ms)).with_metadata
              (toStr "batch_index") (natToStr p.1)).with_metadata
              (toStr "translator") (toStr "Mock")))

end MockTranslator

namespace GoogleTranslator

structure GoogleConfig where
  timeout : Nat
  retry_count : Nat
  delay_range : Nat × Nat
deriving DecidableEq, Repr

/-- `GoogleConfig::default`. -/
def defaultConfig : GoogleConfig := ⟨30, 3, (300, 600)⟩

/-- The `language_mapping` keys of `GoogleTranslator::with_config`. -/
def supported_languages : List Str :=
  [toStr "en", toStr "zh", toStr "zh-cn", toStr "zh-tw", toStr "ja", toStr "ko",
   toStr "fr", toStr "de", toStr "es", toStr "it", toStr "pt", toStr "ru",
   toStr "ar", toStr "hi", toStr "th", toStr "vi", toStr "id", toStr "nl",
   toStr "sv", toStr "da", toStr "no", toStr "fi", toStr "pl", toStr "tr",
   toStr "cs", toStr "hu", toStr "ro", toStr "bg", toStr "el", toStr "he",
   toStr "uk"]

/-- `GoogleTranslator::normalize_language_code`. -/
def normalize_language_code (language_code : Str) : Str :=
  let normalized := rustLower language_code
  if normalized = toStr "en-us" ∨ normalized = toStr "en-gb" then toStr "en"
  else if normalized = toStr "zh" then toStr "zh-cn"
  else if normalized = toStr "zh-cn" then toStr "zh-cn"
  else if normalized = toStr "zh-tw" then toStr "zh-tw"
  else if normalized = toStr "ja-jp" then toStr "ja"
  else if normalized = toStr "ko-kr" then toStr "ko"
  else if normalized = toStr "fr-fr" then toStr "fr"
  else if normalized = toStr "de-de" then toStr "de"
  else if normalized = toStr "es-es" then toStr "es"
  else if normalized = toStr "it-it" then toStr "it"
  else if normalized = toStr "pt-br" ∨ normalized = toStr "pt-pt" then toStr "pt"
  else if normalized = toStr "ru-ru" then toStr "ru"
  else if normalized = toStr "ar-sa" then toStr "ar"
  else if normalized = toStr "hi-in" then toStr "hi"
  else if normalized = toStr "th-th" then toStr "th"
  else if normalized = toStr "vi-vn" then toStr "vi"
  else if normalized = toStr "id-id" then toStr "id"
  else normalized

def unknownError : TranslationError :=
  .TranslationFailed (toStr "Unknown error") (toStr "Google Translate") none

/-- The retry loop of `GoogleTranslator::translate`
(`for attempt in 0..retry_count`).  `oracle a` is the outcome of the `a`-th
`call_google_api` network call (0-based).  The loop is expressed by
recursion on `remaining = retry_count - attempt`; a back-off sleep of
`500 * (attempt + 1)` ms happens after a failed attempt exactly when
`attempt < retry_count - 1`, i.e. when at least one more attempt remains.
Returns the final outcome, the list of back-off sleeps performed (in ms),
and the number of API calls made. -/
def retryLoop (oracle : Nat → Except TranslationError Str)
    (text source_lang target_lang : Str) (delay_ms : Nat) :
    Nat → Nat → Option TranslationError →
    Except TranslationError TranslationResult × List Nat × Nat
  | 0, _, last_error => (.error (last_error.getD unknownError), [], 0)
  | remaining + 1, attempt, _ =>
    match oracle attempt with
    | .ok translated_text =>
      (.ok ((((TranslationResult.success text translated_text source_lang target_lang
          (Rat.mk' 9 10)).with_metadata
            (toStr "translator") (toStr "Google Translate")).with_metadata
            (toStr "attempt") (natToStr (attempt + 1))).with_metadata
            (toStr "delay_ms") (natToStr delay_ms)),
       [], 1)
    | .error e =>
      let r := retryLoop oracle text source_lang target_lang delay_ms
        remaining (attempt + 1) (some e)
      if 0 < remaining then
        (r.1, 500 * (attempt + 1) :: r.2.1, r.2.2 + 1)
      else
        (r.1, r.2.1, r.2.2 + 1)

/-- `GoogleTranslator::translate`.  Returns the outcome together with the
full sleep schedule (the pacing delay, then the retry back-offs) and the
number of API calls. -/
def translate (config : GoogleConfig) (oracle : Nat → Except TranslationError Str)
    (delay_ms : Nat) (text source_language target_language : Str) :
    Except TranslationError TranslationResult × List Nat × Nat :=
  if rustTrim text = [] then
    (.error (.InvalidInput (toStr "Text cannot be empty")), [], 0)
  else
    match validate_languages normalize_language_code supported_languages
        source_language target_language with
    | .error e => (.error e, [], 0)
    | .ok _ =>
      let source_lang := normalize_language_code source_language
      let target_lang := normalize_language_code target_language
      let r := retryLoop oracle text source_lang target_lang delay_ms
        config.retry_count 0 none
      (r.1, delay_ms :: r.2.1, r.2.2)

/-- `GoogleTranslator::translate_batch`: validates the languages once, then
converts each per-item `translate` failure into a `Failed` result tagged
with its batch index.  `oracles i` is the API oracle of item `i`, `delays i`
its pacing draw.  The returned order matches the input order (the source
joins the spawned tasks in spawn order). -/
def translate_batch (config : GoogleConfig)
    (oracles : Nat → Nat → Except TranslationError Str) (delays : Nat → Nat)
    (texts : List Str) (source_language target_language : Str) :
    Except TranslationError (List TranslationResult) :=
  match validate_languages normalize_language_code supported_languages
      source_language target_language with
  | .error e => .error e
  | .ok _ =>
    .ok (texts.enum.map (fun p =>
      match (translate config (oracles p.1) (delays p.1) p.2
          source_language target_language).1 with
      | .ok result => result.with_metadata (toStr "batch_index") (natToStr p.1)
      | .error _ =>
        (TranslationResult.failed p.2 source_language target_language
          (toStr "Translation failed in batch")).with_metadata
          (toStr "batch_index") (natToStr p.1)))

end GoogleTranslator

/- ### Language detector (langlint_core/src/types.rs)

The statistical classifier is the external `whatlang` crate; it is passed in
as a parameter `classify` returning the detected language and its
confidence.  The wrapper logic below is `detect_language` from the source. -/

inductive WhatLang where
  | Eng | Cmn | Jpn | Kor | Fra | Deu | Spa | Por | Rus | Ita | Nld | Pol
  | Swe | Tha | Vie | Hin | Ind | Ara | Heb | Tur | Ell | Pes | Other
deriving DecidableEq, Repr

/-- The language-code mapping of `detect_language`; unsupported detections
fall through to `none`. -/
def langCode : WhatLang → Option Str
  | .Eng => some (toStr "en")
  | .Cmn => some (toStr "zh-CN")
  | .Jpn => some (toStr "ja")
  | .Kor => some (toStr "ko")
  | .Fra => some (toStr "fr")
  | .Deu => some (toStr "de")
  | .Spa => some (toStr "es")
  | .Por => some (toStr "pt")
  | .Rus => some (toStr "ru")
  | .Ita => some (toStr "it")
  | .Nld => some (toStr "nl")
  | .Pol => some (toStr "pl")
  | .Swe => some (toStr "sv")
  | .Tha => some (toStr "th")
  | .Vie => some (toStr "vi")
  | .Hin => some (toStr "hi")
  | .Ind => some (toStr "id")
  | .Ara => some (toStr "ar")
  | .Heb => some (toStr "he")
  | .Tur => some (toStr "tr")
  | .Ell => some (toStr "el")
  | .Pes => some (toStr "fa")
  | .Other => none

/-- `detect_language`.  Note the length guard compares the UTF-8 byte length
of the trimmed text (`str::len`), not its character count. -/
def detect_language (classify : Str → Option (WhatLang × ℚ)) (text : Str) :
    Option Str :=
  if utf8Len (rustTrim text) < 3 then none
  else
    match classify text with
    | some info =>
      match langCode info.1 with
      | none => none
      | some lang_code => if info.2 > Rat.mk' 7 10 then some lang_code else none
    | none => none

/- ### Cache (langlint_core/src/cache.rs)

`Cache::generate_key` feeds path and content through `DefaultHasher`
(std's SipHash-1-3), an external, unspecified 64-bit hash; it is passed in
as a parameter `hasher`. -/

namespace Cache

def hexDigit (n : Nat) : Char :=
  if n < 10 then Char.ofNat (48 + n) else Char.ofNat (87 + n)

/-- Lowercase hexadecimal rendering of a `u64`, as `format!("{:x}", _)`. -/
def hexStr (n : Nat) : Str :=
  if n = 0 then ['0'] else ((Nat.digits 16 n).map hexDigit).reverse

/-- `Cache::generate_key`: `format!("{}:{:x}", file_path, hasher.finish())`
where the hasher has absorbed the path and the content. -/
def generate_key (hasher : Str → Str → Fin (2 ^ 64)) (file_path content : Str) :
    Str :=
  file_path ++ ':' :: hexStr (hasher file_path content).val

end Cache

instance : Inhabited TranslationResult :=
  ⟨⟨[], [], [], [], .Success, 0, none⟩⟩

/- ### Claim C4 — empty-text rejection -/

/-- C4 (corrected): the claim says *every* backend rejects empty or
whitespace-only text as `InvalidInput`; in fact only the web backend checks.
Amended: the web backend returns `InvalidInput` on whitespace-only text
before doing anything else, while the mock backend performs no such check
and (with the default, never-failing configuration) translates empty text
to a `Success` result. -/
theorem C4_empty_text :
    (∀ (config : GoogleTranslator.GoogleConfig)
       (oracle : Nat → Except TranslationError Str) (delay_ms : Nat)
       (text source target : Str), rustTrim text = [] →
       GoogleTranslator.translate config oracle delay_ms text source target =
         (.error (.InvalidInput (toStr "Text cannot be empty")), [], 0)) ∧
    (∀ (delay_ms : Nat) (random_val confidence : ℚ), 0 ≤ random_val →
       (MockTranslator.translate MockTranslator.defaultConfig delay_ms
          random_val confidence (toStr "") (toStr "en") (toStr "zh")).isOk = true) := by
  constructor
  · intro config oracle delay_ms text source target h
    simp [GoogleTranslator.translate, h]
  · intro delay_ms random_val confidence h
    have hlt : ¬ random_val < MockTranslator.defaultConfig.error_rate := by
      simp only [MockTranslator.defaultConfig]
      exact not_lt.mpr h
    simp [MockTranslator.translate, validate_languages, is_language_supported,
      MockTranslator.supported_languages, MockTranslator.language_mapping,
      MockTranslator.normalize_language_code, rustLower, toStr, hlt,
      Except.isOk, Except.toBool]

theorem C4_empty_text_witness :
    GoogleTranslator.translate GoogleTranslator.defaultConfig
      (fun _ => .error .NetworkError) 300 (toStr "   ") (toStr "en") (toStr "fr") =
      (.error (.InvalidInput (toStr "Text cannot be empty")), [], 0) ∧
    (MockTranslator.translate MockTranslator.defaultConfig 100 0 1
      (toStr "") (toStr "en") (toStr "zh")).isOk = true :=
  ⟨C4_empty_text.1 _ _ 300 _ _ _ (by decide),
   C4_empty_text.2 100 0 1 (by decide)⟩

/-- C4 counterexample: the mock backend, called with empty text, returns a
`Success` result rather than an `InvalidInput` error (matching the source's
own `test_empty_text`), so the claim is false for the mock backend. -/
theorem C4_counterexample :
    ((MockTranslator.translate MockTranslator.defaultConfig 100 0 1
        (toStr "") (toStr "en") (toStr "zh")).toOption.map
          TranslationResult.status) = some .Success ∧
    (MockTranslator.translate MockTranslator.defaultConfig 100 0 1
        (toStr "") (toStr "en") (toStr "zh")) ≠
      .error (.InvalidInput (toStr "Text cannot be empty")) := by
  decide

/- ### Claim C5 — language-code normalization -/

/-- C5 counterexample: the mock backend does *not* normalize every `zh-*`
variant to `zh`; `zh-HK` is merely lowercased. -/
theorem C5_counterexample :
    MockTranslator.normalize_language_code (toStr "zh-HK") = toStr "zh-hk" ∧
    toStr "zh-hk" ≠ toStr "zh" := by
  decide

/-- C5 (corrected): regional variants collapse to a base code (`en-US → en`
on both backends); the web backend maps `zh` to `zh-cn` (and keeps `zh-tw`);
the mock backend maps exactly `zh-CN` and `zh-TW` to `zh` and only
lowercases any other `zh-*` variant. -/
theorem C5_normalization :
    GoogleTranslator.normalize_language_code (toStr "en-US") = toStr "en" ∧
    MockTranslator.normalize_language_code (toStr "en-US") = toStr "en" ∧
    GoogleTranslator.normalize_language_code (toStr "zh") = toStr "zh-cn" ∧
    GoogleTranslator.normalize_language_code (toStr "zh-TW") = toStr "zh-tw" ∧
    MockTranslator.normalize_language_code (toStr "zh-CN") = toStr "zh" ∧
    MockTranslator.normalize_language_code (toStr "zh-TW") = toStr "zh" ∧
    MockTranslator.normalize_language_code (toStr "zh") = toStr "zh" ∧
    MockTranslator.normalize_language_code (toStr "zh-HK") = toStr "zh-hk" := by
  decide

/- ### Claim C6 — language detection guards -/

/-- C6 counterexample: the length guard of `detect_language` compares the
UTF-8 *byte* length of the trimmed text, not its character count.  With the
classifier behaving as `whatlang` does on pure-Han text (script-determined
detection: Mandarin with confidence 1.0), the two-character input `中文`
(six bytes) is *not* rejected, contradicting the claim that every input
shorter than three characters yields no code. -/
theorem C6_counterexample :
    detect_language (fun _ => some (.Cmn, 1)) (toStr "中文") = some (toStr "zh-CN") ∧
    (rustTrim (toStr "中文")).length = 2 := by
  decide

/-- C6 (corrected): `detect_language` returns no code when the trimmed text
is shorter than three *bytes*; otherwise it returns no code when the
classifier's confidence is not strictly greater than 0.7 or the detected
language is outside the fixed supported set, and the mapped code from that
set otherwise. -/
theorem C6_detect_language (classify : Str → Option (WhatLang × ℚ))
    (text : Str) (lang : WhatLang) (conf : ℚ) :
    (utf8Len (rustTrim text) < 3 → detect_language classify text = none) ∧
    (classify text = some (lang, conf) → conf ≤ Rat.mk' 7 10 →
      detect_language classify text = none) ∧
    (classify text = some (lang, conf) → langCode lang = none →
      detect_language classify text = none) ∧
    (3 ≤ utf8Len (rustTrim text) → classify text = some (lang, conf) →
      conf > Rat.mk' 7 10 → ∀ code, langCode lang = some code →
      detect_language classify text = some code) := by
  refine ⟨fun h => by simp [detect_language, h], ?_, ?_, ?_⟩
  · intro hcl hconf
    by_cases hlen : utf8Len (rustTrim text) < 3
    · simp [detect_language, hlen]
    · simp only [detect_language, if_neg hlen, hcl]
      cases hlc : langCode lang with
      | none => simp
      | some code => simp [not_lt.mpr hconf]
  · intro hcl hlc
    by_cases hlen : utf8Len (rustTrim text) < 3
    · simp [detect_language, hlen]
    · simp only [detect_language, if_neg hlen, hcl, hlc]
  · intro hlen hcl hconf code hcode
    simp only [detect_language,
      if_neg (by omega : ¬ utf8Len (rustTrim text) < 3), hcl, hcode]
    simp [hconf]

theorem C6_detect_language_witness :
    detect_language (fun _ => some (.Eng, Rat.mk' 9 10)) (toStr "hello world") =
      some (toStr "en") :=
  (C6_detect_language (fun _ => some (.Eng, Rat.mk' 9 10)) (toStr "hello world")
    .Eng (Rat.mk' 9 10)).2.2.2 (by decide) rfl (by decide) _ rfl

/- ### Claim C8 — web-backend retry behavior -/

theorem retryLoop_calls_le (oracle : Nat → Except TranslationError Str)
    (text s t : Str) (d : Nat) :
    ∀ (rem attempt : Nat) (le : Option TranslationError),
      (GoogleTranslator.retryLoop oracle text s t d rem attempt le).2.2 ≤ rem := by
  intro rem
  induction rem with
  | zero => intro attempt le; simp [GoogleTranslator.retryLoop]
  | succ rem ih =>
    intro attempt le
    simp only [GoogleTranslator.retryLoop]
    cases oracle attempt with
    | ok v => simp
    | error e =>
      have := ih (attempt + 1) (some e)
      by_cases h : 0 < rem <;> simp [h] <;> omega

theorem retryLoop_all_fail (oracle : Nat → Except TranslationError Str)
    (text s t : Str) (d : Nat) (errs : Nat → TranslationError) :
    ∀ (rem attempt : Nat) (le : Option TranslationError), 1 ≤ rem →
      (∀ b, attempt ≤ b → b < attempt + rem → oracle b = .error (errs b)) →
      GoogleTranslator.retryLoop oracle text s t d rem attempt le =
        (.error (errs (attempt + rem - 1)),
         (List.range' (attempt + 1) (rem - 1)).map (fun a => 500 * a),
         rem) := by
  intro rem
  induction rem with
  | zero => omega
  | succ rem ih =>
    intro attempt le _ hfail
    simp only [GoogleTranslator.retryLoop]
    rw [hfail attempt (le_refl _) (by omega)]
    cases hrem : rem with
    | zero =>
      simp [GoogleTranslator.retryLoop]
    | succ rem2 =>
      have hrec := ih (attempt + 1) (some (errs attempt)) (by omega)
        (fun b hb1 hb2 => hfail b (by omega) (by omega))
      rw [hrem] at hrec
      simp only [hrec]
      have h0 : 0 < rem2 + 1 := by omega
      simp only [if_pos h0]
      rw [show attempt + (rem2 + 1 + 1) - 1 = attempt + 1 + (rem2 + 1) - 1 from by omega]
      rw [show List.range' (attempt + 1) (rem2 + 1 + 1 - 1) =
            (attempt + 1) :: List.range' (attempt + 1 + 1) (rem2 + 1 - 1) from rfl]
      simp

/-- C8 (confirmed): the web backend's `translate` performs at most the
configured number of API attempts (the default configuration allows 3);
after each failed attempt other than the last it sleeps `500 ms * attempt
number` (1-based) before retrying, and when every attempt fails the error
returned is the error of the last attempt. -/
theorem C8_retry (config : GoogleTranslator.GoogleConfig)
    (oracle : Nat → Except TranslationError Str) (delay_ms : Nat)
    (text source target : Str) (errs : Nat → TranslationError) :
    (GoogleTranslator.translate config oracle delay_ms text source target).2.2 ≤
      config.retry_count ∧
    GoogleTranslator.defaultConfig.retry_count = 3 ∧
    (rustTrim text ≠ [] →
     validate_languages GoogleTranslator.normalize_language_code
       GoogleTranslator.supported_languages source target = .ok () →
     1 ≤ config.retry_count →
     (∀ a, a < config.retry_count → oracle a = .error (errs a)) →
     GoogleTranslator.translate config oracle delay_ms text source target =
       (.error (errs (config.retry_count - 1)),
        delay_ms :: (List.range' 1 (config.retry_count - 1)).map (fun a => 500 * a),
        config.retry_count)) := by
  refine ⟨?_, rfl, ?_⟩
  · unfold GoogleTranslator.translate
    split
    · simp
    · split
      · simp
      · exact retryLoop_calls_le _ _ _ _ _ _ _ _
  · intro htext hval hrc hfail
    unfold GoogleTranslator.translate
    rw [if_neg htext, hval]
    have := retryLoop_all_fail oracle text
      (GoogleTranslator.normalize_language_code source)
      (GoogleTranslator.normalize_language_code target) delay_ms errs
      config.retry_count 0 none hrc
      (fun b _ hb2 => hfail b (by omega))
    simp [this]

theorem C8_retry_witness :
    GoogleTranslator.translate GoogleTranslator.defaultConfig
      (fun _ => .error .NetworkError) 400 (toStr "hello") (toStr "en") (toStr "fr") =
      (.error .NetworkError, [400, 500, 1000], 3) := by
  have h := (C8_retry GoogleTranslator.defaultConfig
    (fun _ => .error .NetworkError) 400 (toStr "hello") (toStr "en") (toStr "fr")
    (fun _ => .NetworkError)).2.2 (by decide) (by decide) (by decide)
    (fun a _ => rfl)
  simpa [List.range'] using h

/- ### Claim C2 — batch length/order and per-item failure degradation -/

theorem with_metadata_fields (r : TranslationResult) (k v : Str) :
    (r.with_metadata k v).original_text = r.original_text ∧
    (r.with_metadata k v).translated_text = r.translated_text ∧
    (r.with_metadata k v).status = r.status := by
  simp [TranslationResult.with_metadata]

theorem retryLoop_ok_fields (oracle : Nat → Except TranslationError Str)
    (text s t : Str) (d : Nat) :
    ∀ (rem attempt : Nat) (le : Option TranslationError) (r : TranslationResult),
      (GoogleTranslator.retryLoop oracle text s t d rem attempt le).1 = .ok r →
      r.original_text = text ∧ r.status = .Success := by
  intro rem
  induction rem with
  | zero => intro attempt le r h; simp [GoogleTranslator.retryLoop] at h
  | succ rem ih =>
    intro attempt le r h
    cases horacle : oracle attempt with
    | ok v =>
      simp only [GoogleTranslator.retryLoop, horacle, Except.ok.injEq] at h
      rw [← h]
      simp [TranslationResult.with_metadata, TranslationResult.success]
    | error e =>
      simp only [GoogleTranslator.retryLoop, horacle] at h
      by_cases h0 : 0 < rem
      · rw [if_pos h0] at h
        exact ih (attempt + 1) (some e) r h
      · rw [if_neg h0] at h
        exact ih (attempt + 1) (some e) r h

theorem google_translate_ok_fields (config : GoogleTranslator.GoogleConfig)
    (oracle : Nat → Except TranslationError Str) (delay_ms : Nat)
    (text source target : Str) (r : TranslationResult)
    (h : (GoogleTranslator.translate config oracle delay_ms text source target).1 =
      .ok r) : r.original_text = text ∧ r.status = .Success := by
  unfold GoogleTranslator.translate at h
  split at h
  · simp at h
  · split at h
    · simp at h
    · exact retryLoop_ok_fields _ _ _ _ _ _ _ _ _ h

/-- C2 (corrected): for the *web* backend, `translate_batch` on a valid
language pair returns one result per input in input order with
`original_text` matching, and converts every per-item `translate` failure
into a `Failed` result whose `translated_text` falls back to that item's
original text.  The claim is false for the mock backend, whose simulated
error (drawn once, before the loop) fails the whole batch call instead:
with error rate 1.0 the batch returns an error, not per-item results. -/
theorem C2_batch_shape (config : GoogleTranslator.GoogleConfig)
    (oracles : Nat → Nat → Except TranslationError Str) (delays : Nat → Nat)
    (texts : List Str) (source target : Str)
    (hval : validate_languages GoogleTranslator.normalize_language_code
      GoogleTranslator.supported_languages source target = .ok ()) :
    (GoogleTranslator.translate_batch config oracles delays texts source target).isOk
      = true ∧
    ((GoogleTranslator.translate_batch config oracles delays texts source
        target).toOption.getD []).length = texts.length ∧
    (∀ i, i < texts.length →
      (((GoogleTranslator.translate_batch config oracles delays texts source
          target).toOption.getD []).getD i default).original_text =
        texts.getD i [] ∧
      ((GoogleTranslator.translate config (oracles i) (delays i)
          (texts.getD i []) source target).1.isOk = false →
        (((GoogleTranslator.translate_batch config oracles delays texts source
            target).toOption.getD []).getD i default).status = .Failed ∧
        (((GoogleTranslator.translate_batch config oracles delays texts source
            target).toOption.getD []).getD i default).translated_text =
          texts.getD i [])) := by
  have hbatch : GoogleTranslator.translate_batch config oracles delays texts
      source target = .ok (texts.enum.map (fun p =>
        match (GoogleTranslator.translate config (oracles p.1) (delays p.1) p.2
            source target).1 with
        | .ok result => result.with_metadata (toStr "batch_index") (natToStr p.1)
        | .error _ =>
          (TranslationResult.failed p.2 source target
            (toStr "Translation failed in batch")).with_metadata
            (toStr "batch_index") (natToStr p.1))) := by
    unfold GoogleTranslator.translate_batch
    rw [hval]
  refine ⟨by rw [hbatch]; rfl, ?_, ?_⟩
  · rw [hbatch]
    simp [Except.toOption]
  · intro i hi
    rw [hbatch]
    simp only [Except.toOption, Option.getD_some]
    have hget : (texts.enum.map (fun p =>
        match (GoogleTranslator.translate config (oracles p.1) (delays p.1) p.2
            source target).1 with
        | .ok result => result.with_metadata (toStr "batch_index") (natToStr p.1)
        | .error _ =>
          (TranslationResult.failed p.2 source target
            (toStr "Translation failed in batch")).with_metadata
            (toStr "batch_index") (natToStr p.1))).getD i default =
        (match (GoogleTranslator.translate config (oracles i) (delays i)
            (texts.getD i []) source target).1 with
        | .ok result => result.with_metadata (toStr "batch_index") (natToStr i)
        | .error _ =>
          (TranslationResult.failed (texts.getD i []) source target
            (toStr "Translation failed in batch")).with_metadata
            (toStr "batch_index") (natToStr i)) := by
      have h1 : texts.enum[i]? = some (i, texts.getD i []) := by
        rw [List.getElem?_enum]
        have : texts[i]? = some (texts.getD i []) := by
          rw [List.getD_eq_getElem?_getD]
          cases h : texts[i]? with
          | none => exact absurd (List.getElem?_eq_none_iff.mp h) (by omega)
          | some v => simp
        rw [this]
        rfl
      rw [List.getD_eq_getElem?_getD, List.getElem?_map, h1]
      rfl
    rw [hget]
    cases htr : (GoogleTranslator.translate config (oracles i) (delays i)
        (texts.getD i []) source target).1 with
    | ok r =>
      have hf := google_translate_ok_fields _ _ _ _ _ _ _ htr
      refine ⟨?_, fun hbad => ?_⟩
      · simp [TranslationResult.with_metadata, hf.1]
      · simp [Except.isOk, Except.toBool] at hbad
    | error e =>
      refine ⟨?_, fun _ => ⟨?_, ?_⟩⟩ <;>
        simp [TranslationResult.with_metadata, TranslationResult.failed]

theorem C2_batch_shape_witness :
    ((GoogleTranslator.translate_batch GoogleTranslator.defaultConfig
      (fun i => if i = 1 then (fun _ => .error .NetworkError)
                else (fun _ => .ok (toStr "done")))
      (fun _ => 0) [toStr "good", toStr "bad", toStr "ugly"]
      (toStr "en") (toStr "fr")).toOption.getD []).length = 3 ∧
    (((GoogleTranslator.translate_batch GoogleTranslator.defaultConfig
      (fun i => if i = 1 then (fun _ => .error .NetworkError)
                else (fun _ => .ok (toStr "done")))
      (fun _ => 0) [toStr "good", toStr "bad", toStr "ugly"]
      (toStr "en") (toStr "fr")).toOption.getD []).getD 1 default).status = .Failed ∧
    (((GoogleTranslator.translate_batch GoogleTranslator.defaultConfig
      (fun i => if i = 1 then (fun _ => .error .NetworkError)
                else (fun _ => .ok (toStr "done")))
      (fun _ => 0) [toStr "good", toStr "bad", toStr "ugly"]
      (toStr "en") (toStr "fr")).toOption.getD []).getD 1 default).translated_text =
      toStr "bad" := by
  have h := C2_batch_shape GoogleTranslator.defaultConfig
    (fun i => if i = 1 then (fun _ => .error .NetworkError)
              else (fun _ => .ok (toStr "done")))
    (fun _ => 0) [toStr "good", toStr "bad", toStr "ugly"]
    (toStr "en") (toStr "fr") (by decide)
  exact ⟨h.2.1, ((h.2.2 1 (by decide)).2 (by decide)).1,
    ((h.2.2 1 (by decide)).2 (by decide)).2⟩

/-- C2 counterexample: the mock backend with error rate 1.0 and three inputs
returns a batch-level error rather than three results, because its single
pre-loop random draw (always below rate 1.0) fails the whole call —
matching the source's own `test_mock_translate_batch_error`. -/
theorem C2_counterexample :
    MockTranslator.translate_batch ⟨(10, 20), 1, (Rat.mk' 4 5, 1)⟩ 10 0
      (fun _ => 1) [toStr "Hello", toStr "World", toStr "Test"]
      (toStr "en") (toStr "zh") =
    .error (.TranslationFailed
      (toStr "Mock batch translation failed (simulated error)")
      (toStr "Mock") (some (toStr "MOCK_BATCH_ERROR"))) := by
  decide

/- ### Claim C7 — translatability filter boundary -/

theorem utf8Size_of_ascii (c : Char) (h : c.toNat < 128) : c.utf8Size = 1 := by
  unfold Char.utf8Size
  have hle : c.val ≤ 0x7F := by
    change c.val.toNat ≤ (127 : UInt32).toNat
    exact Nat.le_of_lt_succ h
  simp [hle]

theorem utf8Len_of_ascii (s : Str) (h : ∀ c ∈ s, c.toNat < 128) :
    utf8Len s = s.length := by
  induction s with
  | nil => rfl
  | cons c rest ih =>
    have hc := utf8Size_of_ascii c (h c (List.mem_cons_self c rest))
    have hr := ih (fun x hx => h x (List.mem_cons_of_mem c hx))
    simp [utf8Len] at hr ⊢
    omega

/-- C7 counterexample: the Python extractor emits a unit whose content is
the two-character string `中文` (the filter's minimum-length test is on
UTF-8 bytes, and `中文` is six bytes), contradicting the claim that no
extracted unit ever has a 2-character content. -/
theorem C7_counterexample :
    (PythonParser.extract_units (toStr "# 中文") (toStr "test.py")).units.map
      (·.content) = [toStr "中文"] ∧
    (toStr "中文").length = 2 ∧
    PythonParser.is_translatable (toStr "中文") = true := by
  decide

/-- C7 (corrected): the filters' minimum-length test compares UTF-8 bytes:
any text whose trimmed form is shorter than 3 bytes — in particular any
trimmed 2-character ASCII text — is rejected by both the Generic-Code and
Python filters, but a 2-character multibyte (e.g. CJK) text can pass.  A
3-character alphabetic ASCII comment text such as `abc` passes the filter
and is emitted as a unit by both extractors. -/
theorem C7_filter_boundary (text : Str) :
    (utf8Len (rustTrim text) < 3 →
      PythonParser.is_translatable text = false ∧
      GenericCodeParser.is_translatable text = false) ∧
    ((rustTrim text).length ≤ 2 → (∀ c ∈ rustTrim text, c.toNat < 128) →
      PythonParser.is_translatable text = false ∧
      GenericCodeParser.is_translatable text = false) ∧
    ((PythonParser.extract_units (toStr "# abc") (toStr "test.py")).units.map
        (·.content) = [toStr "abc"] ∧
     (GenericCodeParser.extract_units (toStr "// abc") (toStr ".js")).units.map
        (·.content) = [toStr "abc"]) := by
  refine ⟨?_, ?_, by decide⟩
  · intro h
    constructor
    · unfold PythonParser.is_translatable
      simp [h]
    · unfold GenericCodeParser.is_translatable
      simp [h]
  · intro hlen hascii
    have h : utf8Len (rustTrim text) < 3 := by
      rw [utf8Len_of_ascii _ hascii]
      omega
    constructor
    · unfold PythonParser.is_translatable
      simp [h]
    · unfold GenericCodeParser.is_translatable
      simp [h]

theorem C7_filter_boundary_witness :
    (PythonParser.is_translatable (toStr "ab") = false ∧
     GenericCodeParser.is_translatable (toStr "ab") = false) ∧
    (PythonParser.extract_units (toStr "# abc") (toStr "test.py")).units.map
      (·.content) = [toStr "abc"] :=
  ⟨(C7_filter_boundary (toStr "ab")).2.1 (by decide) (by decide),
   ((C7_filter_boundary (toStr "ab")).2.2).1⟩

/- ### Claim C9 — cache key distinctness -/

theorem hexDigit_inj_fin : ∀ a b : Fin 16,
    Cache.hexDigit a.val = Cache.hexDigit b.val → a = b := by
  decide

theorem hexDigit_ne_colon_fin : ∀ a : Fin 16, Cache.hexDigit a.val ≠ ':' := by
  decide

theorem map_hexDigit_inj : ∀ l1 l2 : List Nat, (∀ d ∈ l1, d < 16) →
    (∀ d ∈ l2, d < 16) → l1.map Cache.hexDigit = l2.map Cache.hexDigit →
    l1 = l2 := by
  intro l1
  induction l1 with
  | nil => intro l2 _ _ h; cases l2 with
    | nil => rfl
    | cons c t => simp at h
  | cons d t ih =>
    intro l2 h1 h2 h
    cases l2 with
    | nil => simp at h
    | cons d2 t2 =>
      simp only [List.map_cons, List.cons.injEq] at h
      have hd : d = d2 := by
        have hf := hexDigit_inj_fin ⟨d, h1 d (List.mem_cons_self d t)⟩
          ⟨d2, h2 d2 (List.mem_cons_self d2 t2)⟩ h.1
        exact congrArg Fin.val hf
      have ht := ih t2 (fun x hx => h1 x (List.mem_cons_of_mem d hx))
        (fun x hx => h2 x (List.mem_cons_of_mem d2 hx)) h.2
      rw [hd, ht]

theorem hexStr_no_colon (n : Nat) : ':' ∉ Cache.hexStr n := by
  unfold Cache.hexStr
  split
  · decide
  · intro hmem
    rw [List.mem_reverse] at hmem
    obtain ⟨d, hd, hdeq⟩ := List.mem_map.mp hmem
    have hlt : d < 16 := Nat.digits_lt_base (by omega) hd
    exact hexDigit_ne_colon_fin ⟨d, hlt⟩ hdeq

theorem hexStr_inj (n m : Nat) (h : Cache.hexStr n = Cache.hexStr m) : n = m := by
  unfold Cache.hexStr at h
  by_cases hn : n = 0 <;> by_cases hm : m = 0
  · omega
  · rw [if_pos hn, if_neg hm] at h
    have hmap : (Nat.digits 16 m).map Cache.hexDigit = ['0'] := by
      have := congrArg List.reverse h
      simpa using this.symm
    have hd : Nat.digits 16 m = [0] := by
      cases hdig : Nat.digits 16 m with
      | nil => rw [hdig] at hmap; simp at hmap
      | cons d t =>
        rw [hdig] at hmap
        cases t with
        | nil =>
          simp only [List.map_cons, List.map_nil, List.cons.injEq] at hmap
          have hlt : d < 16 := Nat.digits_lt_base (by omega)
            (hdig ▸ List.mem_cons_self d [])
          have : (⟨d, hlt⟩ : Fin 16) = ⟨0, by omega⟩ := by
            apply hexDigit_inj_fin
            simpa [Cache.hexDigit] using hmap.1
          simpa using congrArg Fin.val this
        | cons x xs => simp at hmap
    have := Nat.ofDigits_digits 16 m
    rw [hd] at this
    simp [Nat.ofDigits] at this
    omega
  · rw [if_neg hn, if_pos hm] at h
    have hmap : (Nat.digits 16 n).map Cache.hexDigit = ['0'] := by
      have := congrArg List.reverse h
      simpa using this
    have hd : Nat.digits 16 n = [0] := by
      cases hdig : Nat.digits 16 n with
      | nil => rw [hdig] at hmap; simp at hmap
      | cons d t =>
        rw [hdig] at hmap
        cases t with
        | nil =>
          simp only [List.map_cons, List.map_nil, List.cons.injEq] at hmap
          have hlt : d < 16 := Nat.digits_lt_base (by omega)
            (hdig ▸ List.mem_cons_self d [])
          have : (⟨d, hlt⟩ : Fin 16) = ⟨0, by omega⟩ := by
            apply hexDigit_inj_fin
            simpa [Cache.hexDigit] using hmap.1
          simpa using congrArg Fin.val this
        | cons x xs => simp at hmap
    have := Nat.ofDigits_digits 16 n
    rw [hd] at this
    simp [Nat.ofDigits] at this
    omega
  · rw [if_neg hn, if_neg hm] at h
    have hrev := congrArg List.reverse h
    simp only [List.reverse_reverse] at hrev
    have := map_hexDigit_inj (Nat.digits 16 n) (Nat.digits 16 m)
      (fun d hd => Nat.digits_lt_base (by omega) hd)
      (fun d hd => Nat.digits_lt_base (by omega) hd) hrev
    calc n = Nat.ofDigits 16 (Nat.digits 16 n) := (Nat.ofDigits_digits 16 n).symm
      _ = Nat.ofDigits 16 (Nat.digits 16 m) := by rw [this]
      _ = m := Nat.ofDigits_digits 16 m

theorem append_colon_inj : ∀ a1 a2 b1 b2 : Str, ':' ∉ a1 → ':' ∉ a2 →
    a1 ++ ':' :: b1 = a2 ++ ':' :: b2 → a1 = a2 ∧ b1 = b2 := by
  intro a1
  induction a1 with
  | nil =>
    intro a2 b1 b2 _ h2 h
    cases a2 with
    | nil => simpa using h
    | cons c t =>
      simp only [List.nil_append, List.cons_append, List.cons.injEq] at h
      exact absurd (h.1 ▸ List.mem_cons_self c t) h2
  | cons c t ih =>
    intro a2 b1 b2 h1 h2 h
    cases a2 with
    | nil =>
      simp only [List.nil_append, List.cons_append, List.cons.injEq] at h
      exact absurd (h.1 ▸ List.mem_cons_self c t) h1
    | cons c2 t2 =>
      simp only [List.cons_append, List.cons.injEq] at h
      have := ih t2 b1 b2 (fun hx => h1 (List.mem_cons_of_mem c hx))
        (fun hx => h2 (List.mem_cons_of_mem c2 hx)) h.2
      exact ⟨by rw [h.1, this.1], this.2⟩

/-- C9 (corrected): two cache keys coincide exactly when the paths are equal
and the 64-bit hashes of (path, content) are equal.  Hence identical content
at different paths always produces distinct keys (the decimal/hex hash tail
contains no `:` and the path is recoverable from the key), while different
content at the same path produces distinct keys exactly when the hashes
differ — which cannot hold for *all* content pairs (see the pigeonhole
counterexample), though collisions are unlikely by design. -/
theorem C9_generate_key (hasher : Str → Str → Fin (2 ^ 64)) (p1 p2 c1 c2 : Str) :
    Cache.generate_key hasher p1 c1 = Cache.generate_key hasher p2 c2 ↔
      (p1 = p2 ∧ hasher p1 c1 = hasher p2 c2) := by
  constructor
  · intro h
    unfold Cache.generate_key at h
    have hrev := congrArg List.reverse h
    simp only [List.reverse_append, List.reverse_cons] at hrev
    have hform : (Cache.hexStr (hasher p1 c1).val).reverse ++ ':' :: p1.reverse =
        (Cache.hexStr (hasher p2 c2).val).reverse ++ ':' :: p2.reverse := by
      simpa using hrev
    have hsplit := append_colon_inj
      (Cache.hexStr (hasher p1 c1).val).reverse
      (Cache.hexStr (hasher p2 c2).val).reverse p1.reverse p2.reverse
      (by rw [List.mem_reverse]; exact hexStr_no_colon _)
      (by rw [List.mem_reverse]; exact hexStr_no_colon _) hform
    have hp : p1 = p2 := by
      have := congrArg List.reverse hsplit.2
      simpa using this
    have hx : Cache.hexStr (hasher p1 c1).val = Cache.hexStr (hasher p2 c2).val := by
      have := congrArg List.reverse hsplit.1
      simpa using this
    exact ⟨hp, Fin.ext (hexStr_inj _ _ hx)⟩
  · rintro ⟨hp, hh⟩
    subst hp
    unfold Cache.generate_key
    rw [hh]

/-- C9 counterexample: no 64-bit hasher whatsoever can make
`generate_key` injective in the content at a fixed path — by pigeonhole
there are always two distinct contents with the same key — so the claim's
"different content at the same path always produces distinct keys" is false
for the actual `DefaultHasher` no matter how it behaves. -/
theorem C9_counterexample :
    ¬ ∃ hasher : Str → Str → Fin (2 ^ 64), ∀ c1 c2 : Str, c1 ≠ c2 →
      Cache.generate_key hasher (toStr "test.py") c1 ≠
      Cache.generate_key hasher (toStr "test.py") c2 := by
  rintro ⟨hasher, hinj⟩
  obtain ⟨i, j, hij, heq⟩ := Fintype.exists_ne_map_eq_of_card_lt
    (fun i : Fin (2 ^ 64 + 1) => hasher (toStr "test.py") (List.replicate i.val ' '))
    (by rw [Fintype.card_fin, Fintype.card_fin]; exact Nat.lt_succ_self _)
  have hne : List.replicate i.val ' ' ≠ List.replicate j.val ' ' := by
    intro h
    apply hij
    have := congrArg List.length h
    simp at this
    exact Fin.ext this
  apply hinj _ _ hne
  unfold Cache.generate_key
  rw [heq]

/- ### Claims C10 and C3 — Python reconstruction line handling -/

theorem assemble_nil_maps (ls : List Str) (n : Nat) :
    PythonParser.assemble [] [] ls n = ls := by
  induction ls generalizing n with
  | nil => rfl
  | cons l rest ih =>
    simp [PythonParser.assemble, PythonParser.lookupRepl, ih]

theorem pyReconstruct_nil (orig path : Str) :
    PythonParser.reconstruct orig [] path = joinNL (rustLines orig) := by
  unfold PythonParser.reconstruct
  simp [assemble_nil_maps]

/-- C10 counterexample: an original whose last line is empty (here `a\n\n`)
reconstructs to a string that *does* end with a newline, refuting the
claim's "its output never ends with a newline character". -/
theorem C10_counterexample :
    PythonParser.reconstruct (toStr "a\n\n") [] (toStr "t.py") = toStr "a\n" ∧
    (toStr "a\n").getLast? = some '\n' := by
  decide

/-- C10 (corrected): the Python extractor's `reconstruct` returns the
original's lines joined by a single newline; an original that ends with a
trailing newline (and contains no carriage return) loses exactly that final
newline.  The output can still end with a newline when the original's last
line is empty (e.g. an original ending in two newlines), so "never ends with
a newline" does not hold in general. -/
theorem C10_joined_lines :
    (∀ orig path : Str,
      PythonParser.reconstruct orig [] path = joinNL (rustLines orig)) ∧
    (∀ s path : Str, ¬ '\r' ∈ s →
      PythonParser.reconstruct (s ++ ['\n']) [] path = s) := by
  refine ⟨pyReconstruct_nil, fun s path hcr => ?_⟩
  rw [pyReconstruct_nil, rustLines_append_nl]
  rw [List.map_congr_left (fun l hl =>
    stripCR_of_no_cr l (fun hc => hcr (mem_splitNL_sub s l hl '\r' hc)))]
  rw [show (fun (l : Str) => l) = id from rfl, List.map_id]
  exact joinNL_splitNL s

theorem C10_joined_lines_witness :
    PythonParser.reconstruct (toStr "x = 1\n") [] (toStr "t.py") = toStr "x = 1" := by
  have h := C10_joined_lines.2 (toStr "x = 1") (toStr "t.py") (by decide)
  rw [show toStr "x = 1" ++ ['\n'] = toStr "x = 1\n" from by decide] at h
  exact h

theorem rustLines_no_nl (s : Str) : ∀ l ∈ rustLines s, ¬ '\n' ∈ l := by
  intro l hl
  unfold rustLines at hl
  obtain ⟨l0, hl0, hstrip⟩ := List.mem_map.mp hl
  have hl0' : l0 ∈ splitNL s := by
    unfold dropLastEmpty at hl0
    split at hl0
    · exact (List.dropLast_sublist _).mem hl0
    · exact hl0
  intro hc
  have hcl0 : '\n' ∈ l0 := by
    rw [← hstrip] at hc
    unfold stripCR at hc
    split at hc
    · exact (List.dropLast_sublist _).mem hc
    · exact hc
  exact mem_splitNL_no_nl s l0 hl0' hcl0

theorem rustLines_joinNL_length (ls : List Str)
    (hnl : ∀ l ∈ ls, ¬ '\n' ∈ l) (hlast : ls.getLast? ≠ some []) :
    (rustLines (joinNL ls)).length = ls.length := by
  cases hls : ls with
  | nil => rfl
  | cons a t =>
    rw [← hls]
    unfold rustLines dropLastEmpty
    rw [splitNL_joinNL ls (by rw [hls]; simp) hnl, if_neg hlast]
    simp

theorem assemble_append (repl : List (Nat × Str)) (skips : List Nat)
    (l1 l2 : List Str) (n : Nat) :
    PythonParser.assemble repl skips (l1 ++ l2) n =
      PythonParser.assemble repl skips l1 n ++
      PythonParser.assemble repl skips l2 (n + l1.length) := by
  induction l1 generalizing n with
  | nil => simp [PythonParser.assemble]
  | cons l rest ih =>
    simp only [List.cons_append, PythonParser.assemble, List.append_eq]
    rw [ih (n + 1)]
    have : n + 1 + rest.length = n + (l :: rest).length := by simp; omega
    rw [this]
    split <;> simp

theorem assemble_id_of_untouched (repl : List (Nat × Str)) (skips : List Nat)
    (ls : List Str) (n : Nat)
    (h : ∀ i, i < ls.length → (n + i) ∉ skips ∧
      PythonParser.lookupRepl repl (n + i) = none) :
    PythonParser.assemble repl skips ls n = ls := by
  induction ls generalizing n with
  | nil => rfl
  | cons l rest ih =>
    have h0 := h 0 (by simp)
    simp only [Nat.add_zero] at h0
    simp only [PythonParser.assemble, if_neg h0.1, h0.2, Option.getD_none]
    rw [ih (n + 1) (fun i hi => by
      have := h (i + 1) (by simpa using Nat.succ_lt_succ hi)
      rwa [show n + (i + 1) = n + 1 + i from by omega] at this)]

theorem assemble_all_skipped (repl : List (Nat × Str)) (skips : List Nat)
    (ls : List Str) (n : Nat)
    (h : ∀ i, i < ls.length → (n + i) ∈ skips) :
    PythonParser.assemble repl skips ls n = [] := by
  induction ls generalizing n with
  | nil => rfl
  | cons l rest ih =>
    have h0 := h 0 (by simp)
    simp only [Nat.add_zero] at h0
    simp only [PythonParser.assemble, if_pos h0]
    exact ih (n + 1) (fun i hi => by
      have := h (i + 1) (by simpa using Nat.succ_lt_succ hi)
      rwa [show n + (i + 1) = n + 1 + i from by omega] at this)

/-- C3 counterexample: a span-3 docstring extracted from a file whose last
line is empty.  The original has 4 lines, the claim predicts 4 − (3−1) = 2,
but reconstruction yields a single line: collapsing also re-joins with
`\n`, losing the representation of the trailing empty line. -/
theorem C3_counterexample :
    ((PythonParser.extract_units
        (toStr "\"\"\"\nhello world\n\"\"\"\n\n") (toStr "t.py")).units.map
      (fun u => (u.unit_type, u.line_number, u.metadata)) =
      [(.Docstring, 1, some ⟨3, 3⟩)]) ∧
    (rustLines (toStr "\"\"\"\nhello world\n\"\"\"\n\n")).length = 4 ∧
    (rustLines (PythonParser.reconstruct
        (toStr "\"\"\"\nhello world\n\"\"\"\n\n")
        (PythonParser.extract_units
          (toStr "\"\"\"\nhello world\n\"\"\"\n\n") (toStr "t.py")).units
        (toStr "t.py"))).length ≠ 4 - (3 - 1) := by
  decide

theorem lookupRepl_single_eq (ln : Nat) (v : Str) :
    PythonParser.lookupRepl [(ln, v)] ln = some v := by
  simp [PythonParser.lookupRepl, List.find?]

theorem lookupRepl_single_ne (ln m : Nat) (v : Str) (h : ln ≠ m) :
    PythonParser.lookupRepl [(ln, v)] m = none := by
  simp only [PythonParser.lookupRepl, List.find?]
  have : ¬ ((ln, v).1 = m) := h
  simp [this]

/-- C3 (corrected): for a Python docstring unit with metadata span `k ≥ 2`
whose line range lies inside the file, reconstruction emits the single
physical line `indent ++ quote ++ content ++ quote` at the unit's anchor
line and omits the following `k − 1` original lines; provided the original's
last line is nonempty, the reconstructed line count is the original line
count minus `k − 1` (with a trailing empty line the count drops by one
more, see the counterexample). -/
theorem C3_docstring_collapse (orig path content : Str) (k e ln : Nat)
    (hk : 2 ≤ k) (hln : 1 ≤ ln)
    (hrange : ln + (k - 1) ≤ (rustLines orig).length)
    (hnl : ¬ '\n' ∈ content)
    (hlast : (rustLines orig).getLast? ≠ some []) :
    PythonParser.reconstruct orig
      [⟨content, .Docstring, ln, 1, some ⟨k, e⟩, .High⟩] path =
      joinNL ((rustLines orig).take (ln - 1) ++
        [((rustLines orig).getD (ln - 1) []).takeWhile isRustWs ++
          (if containsSub dq3 ((rustLines orig).getD (ln - 1) []) then dq3 else sq3) ++
          content ++
          (if containsSub dq3 ((rustLines orig).getD (ln - 1) []) then dq3 else sq3)] ++
        (rustLines orig).drop (ln - 1 + k)) ∧
    (rustLines (PythonParser.reconstruct orig
      [⟨content, .Docstring, ln, 1, some ⟨k, e⟩, .High⟩] path)).length =
      (rustLines orig).length - (k - 1) := by
  set lines := rustLines orig with hlines
  set line := lines.getD (ln - 1) [] with hline
  set q := if containsSub dq3 line then dq3 else sq3 with hq
  set newLine := line.takeWhile isRustWs ++ q ++ content ++ q with hnew
  set skipsList := (List.range (k - 1)).map (fun offset => ln + offset + 1)
    with hskipsList
  have hlen : ln - 1 < lines.length := by omega
  have hqnn : q ≠ [] := by
    rw [hq]; split <;> simp [dq3, sq3]
  have hqnl : ¬ '\n' ∈ q := by
    rw [hq]; split <;> decide
  have hmaps : ([(⟨content, .Docstring, ln, 1, some ⟨k, e⟩, .High⟩ :
      TranslatableUnit)].foldl (PythonParser.buildStep lines) ([], [])) =
      ([(ln, newLine)], skipsList) := by
    simp only [List.foldl_cons, List.foldl_nil, PythonParser.buildStep]
    rw [if_neg (show ¬ (ln - 1 ≥ lines.length) by omega)]
    simp [hnew, hq, hline, hskipsList]
  have hsplit1 : lines = lines.take (ln - 1) ++ (line :: lines.drop ln) := by
    have h1 : lines.drop (ln - 1) = line :: lines.drop ln := by
      rw [List.drop_eq_getElem_cons hlen]
      congr 1
      · rw [hline, List.getD_eq_getElem?_getD, List.getElem?_eq_getElem hlen]
        rfl
      · congr 1
        omega
    conv_lhs => rw [← List.take_append_drop (ln - 1) lines]
    rw [h1]
  have hsplit2 : lines.drop ln =
      (lines.drop ln).take (k - 1) ++ lines.drop (ln - 1 + k) := by
    conv_lhs => rw [← List.take_append_drop (k - 1) (lines.drop ln)]
    congr 1
    rw [List.drop_drop]
    congr 1
    omega
  have hskips : ∀ m : Nat, m ∈ skipsList ↔ (ln + 1 ≤ m ∧ m ≤ ln + (k - 1)) := by
    intro m
    rw [hskipsList]
    simp only [List.mem_map, List.mem_range]
    constructor
    · rintro ⟨o, ho, rfl⟩; omega
    · intro ⟨h1, h2⟩; exact ⟨m - ln - 1, by omega, by omega⟩
  have htk : (lines.take (ln - 1)).length = ln - 1 := by
    rw [List.length_take]; omega
  have htk2 : ((lines.drop ln).take (k - 1)).length = k - 1 := by
    rw [List.length_take, List.length_drop]; omega
  have hassem : PythonParser.assemble [(ln, newLine)] skipsList lines 1 =
      lines.take (ln - 1) ++ [newLine] ++ lines.drop (ln - 1 + k) := by
    conv_lhs => rw [hsplit1]
    rw [assemble_append, htk]
    rw [assemble_id_of_untouched _ _ _ _ (fun i hi => by
      rw [htk] at hi
      exact ⟨by rw [hskips]; omega, lookupRepl_single_ne _ _ _ (by omega)⟩)]
    have hpos : 1 + (ln - 1) = ln := by omega
    rw [hpos]
    simp only [PythonParser.assemble]
    rw [if_neg (by rw [hskips]; omega), lookupRepl_single_eq]
    simp only [Option.getD_some]
    conv_lhs => rw [hsplit2]
    rw [assemble_append, htk2]
    rw [assemble_all_skipped _ _ _ _ (fun i hi => by
      rw [htk2] at hi
      rw [hskips]
      omega)]
    rw [assemble_id_of_untouched _ _ _ _ (fun i hi => by
      exact ⟨by rw [hskips]; omega, lookupRepl_single_ne _ _ _ (by omega)⟩)]
    simp
  have hrecon : PythonParser.reconstruct orig
      [⟨content, .Docstring, ln, 1, some ⟨k, e⟩, .High⟩] path =
      joinNL (lines.take (ln - 1) ++ [newLine] ++ lines.drop (ln - 1 + k)) := by
    simp only [PythonParser.reconstruct]
    rw [← hlines, hmaps]
    simp only
    rw [hassem]
  refine ⟨by rw [hrecon], ?_⟩
  rw [hrecon]
  have hnlres : ∀ l ∈ lines.take (ln - 1) ++ [newLine] ++ lines.drop (ln - 1 + k),
      ¬ '\n' ∈ l := by
    intro l hl
    rcases List.mem_append.mp hl with hl1 | hl2
    · rcases List.mem_append.mp hl1 with hl3 | hl4
      · exact rustLines_no_nl orig l ((List.take_sublist _ _).mem (hlines ▸ hl3))
      · have hl5 : l = newLine := by simpa using hl4
        subst hl5
        intro hc
        rw [hnew] at hc
        have hlinemem : line ∈ lines := by
          rw [hline, List.getD_eq_getElem?_getD, List.getElem?_eq_getElem hlen]
          simp only [Option.getD_some]
          exact List.getElem_mem hlen
        have hlinenl : ¬ '\n' ∈ line := rustLines_no_nl orig line (hlines ▸ hlinemem)
        rcases List.mem_append.mp hc with hc1 | hc2
        · rcases List.mem_append.mp hc1 with hc3 | hc4
          · rcases List.mem_append.mp hc3 with hc5 | hc6
            · exact hlinenl ((List.takeWhile_prefix _).mem hc5)
            · exact hqnl hc6
          · exact hnl hc4
        · exact hqnl hc2
    · exact rustLines_no_nl orig l ((List.drop_sublist _ _).mem (hlines ▸ hl2))
  have hlastres : (lines.take (ln - 1) ++ [newLine] ++
      lines.drop (ln - 1 + k)).getLast? ≠ some [] := by
    cases hdrop : lines.drop (ln - 1 + k) with
    | nil =>
      simp only [List.append_nil]
      rw [List.getLast?_append_of_ne_nil _ (by simp : ([newLine] : List Str) ≠ [])]
      intro hbad
      have hempty : newLine = [] := by simpa [List.getLast?] using hbad
      rw [hnew] at hempty
      simp only [List.append_eq_nil] at hempty
      exact hqnn hempty.2
    | cons x xs =>
      have h1 : (lines.take (ln - 1) ++ [newLine] ++ (x :: xs)).getLast? =
          (x :: xs).getLast? := List.getLast?_append_of_ne_nil _ (by simp)
      rw [h1]
      have hsuffix : lines.getLast? = (x :: xs).getLast? := by
        conv_lhs => rw [← List.take_append_drop (ln - 1 + k) lines, hdrop]
        exact List.getLast?_append_of_ne_nil _ (by simp)
      rw [← hsuffix]
      exact hlines ▸ hlast
  rw [rustLines_joinNL_length _ hnlres hlastres]
  simp only [List.length_append, List.length_singleton, List.length_drop, htk]
  omega
theorem C3_docstring_collapse_witness :
    PythonParser.reconstruct (toStr "def f():\n    \"\"\"\n    old text\n    \"\"\"\n    pass")
      [⟨toStr "new text", .Docstring, 2, 1, some ⟨3, 4⟩, .High⟩] (toStr "t.py") =
      toStr "def f():\n    \"\"\"new text\"\"\"\n    pass" ∧
    (rustLines (PythonParser.reconstruct
      (toStr "def f():\n    \"\"\"\n    old text\n    \"\"\"\n    pass")
      [⟨toStr "new text", .Docstring, 2, 1, some ⟨3, 4⟩, .High⟩] (toStr "t.py"))).length =
      (rustLines (toStr "def f():\n    \"\"\"\n    old text\n    \"\"\"\n    pass")).length - 2 := by
  have h := C3_docstring_collapse
    (toStr "def f():\n    \"\"\"\n    old text\n    \"\"\"\n    pass") (toStr "t.py")
    (toStr "new text") 3 4 2 (by decide) (by decide) (by decide) (by decide) (by decide)
  exact ⟨by rw [h.1]; decide, h.2⟩

/- ### Claim C1 — round-trip identity -/

theorem findSub_decomp (pat : Str) :
    ∀ (s : Str) (i : Nat), findSub pat s = some i →
      s = s.take i ++ pat ++ s.drop (i + pat.length) := by
  intro s
  induction s with
  | nil =>
    intro i h
    unfold findSub at h
    split at h
    · rename_i hp
      cases pat with
      | nil => simp
      | cons c t => simp [List.isEmpty] at hp
    · simp at h
  | cons c tail ih =>
    intro i h
    unfold findSub at h
    split at h
    · rename_i hp
      simp only [Option.some.injEq] at h
      subst h
      obtain ⟨t, ht⟩ := List.isPrefixOf_iff_prefix.mp hp
      simp only [List.take_zero, List.nil_append, Nat.zero_add]
      conv_lhs => rw [← ht]
      rw [← ht, List.drop_left]
    · simp only [Option.map_eq_some'] at h
      obtain ⟨j, hj, hij⟩ := h
      subst hij
      have := ih j hj
      calc c :: tail = c :: (tail.take j ++ pat ++ tail.drop (j + pat.length)) := by
            rw [← this]
        _ = (c :: tail).take (j + 1) ++ pat ++ (c :: tail).drop (j + 1 + pat.length) := by
            simp only [List.take_succ_cons, List.cons_append]
            congr 2
            rw [show j + 1 + pat.length = (j + pat.length) + 1 from by omega]
            rfl

theorem findSub_char_clean (c : Char) :
    ∀ (ws rest : Str), ¬ c ∈ ws →
      findSub [c] (ws ++ c :: rest) = some ws.length := by
  intro ws
  induction ws with
  | nil =>
    intro rest _
    simp only [List.nil_append]
    unfold findSub
    rw [if_pos]
    · rfl
    · simp [List.isPrefixOf]
  | cons w t ih =>
    intro rest hmem
    have hw : w ≠ c := fun h => hmem (h ▸ List.mem_cons_self w t)
    simp only [List.cons_append]
    unfold findSub
    rw [if_neg (by simp [List.isPrefixOf]; intro hcw; exact absurd hcw.symm hw)]
    rw [ih rest (fun h => hmem (List.mem_cons_of_mem w h))]
    rfl

theorem containsSub_at (pat : Str) :
    ∀ (a b : Str), containsSub pat (a ++ (pat ++ b)) = true := by
  intro a
  induction a with
  | nil =>
    intro b
    unfold containsSub findSub
    cases hp : pat ++ b with
    | nil =>
      cases pat with
      | nil => simp
      | cons c t => simp at hp
    | cons c t =>
      simp only [List.nil_append, hp]
      rw [if_pos (hp ▸ List.isPrefixOf_iff_prefix.mpr ⟨b, rfl⟩)]
      rfl
  | cons x a ih =>
    intro b
    have hrec := ih b
    unfold containsSub at hrec ⊢
    simp only [List.cons_append]
    unfold findSub
    split
    · rfl
    · cases hf : findSub pat (a ++ (pat ++ b)) with
      | none => rw [hf] at hrec; simp at hrec
      | some j => rfl

theorem mem_of_containsSub (pat s : Str) (c : Char) (hc : c ∈ pat)
    (h : containsSub pat s = true) : c ∈ s := by
  unfold containsSub at h
  cases hfind : findSub pat s with
  | none => rw [hfind] at h; simp at hfind h
  | some i =>
    have := findSub_decomp pat s i hfind
    rw [this]
    exact List.mem_append.mpr (Or.inl (List.mem_append.mpr (Or.inr hc)))

theorem takeWhile_ws_append (p : Char → Bool) :
    ∀ (ws : Str) (x : Char) (r : Str), (∀ c ∈ ws, p c = true) → p x = false →
      (ws ++ x :: r).takeWhile p = ws := by
  intro ws
  induction ws with
  | nil => intro x r _ hx; simp [List.takeWhile, hx]
  | cons w t ih =>
    intro x r hall hx
    simp only [List.cons_append, List.takeWhile, List.append_eq]
    rw [hall w (List.mem_cons_self w t)]
    simp only
    rw [ih x r (fun c hc => hall c (List.mem_cons_of_mem w hc)) hx]

theorem dropWhile_ws_append (p : Char → Bool) :
    ∀ (ws : Str) (x : Char) (r : Str), (∀ c ∈ ws, p c = true) → p x = false →
      (ws ++ x :: r).dropWhile p = x :: r := by
  intro ws
  induction ws with
  | nil => intro x r _ hx; simp [List.dropWhile, hx]
  | cons w t ih =>
    intro x r hall hx
    simp only [List.cons_append, List.dropWhile, List.append_eq]
    rw [hall w (List.mem_cons_self w t)]
    simp only
    exact ih x r (fun c hc => hall c (List.mem_cons_of_mem w hc)) hx

/-- Decomposition of a line by its leading whitespace. -/
theorem takeWhile_append_drop_self (p : Char → Bool) (l : Str) :
    l = l.takeWhile p ++ l.dropWhile p :=
  (List.takeWhile_append_dropWhile (p := p) (l := l)).symm

end Langlint
